import Mathlib

/-!
Shallow embedding of `otelwrap.go` (package `otelwrap`), a thin wrapper
around the OpenTelemetry tracing client.

The provider (the external tracing library) is modelled as an explicit
store of span records (`ProviderState`); a provider span handle
(`TraceSpan`) is either the provider's own no-op span or a reference into
that store.  Go's `context.Context` is modelled as a record carrying the
optional provider span; the process-global propagator is passed as an
explicit value.  Go maps of strings are modelled as association lists.
-/

/-- Span kind passed to the provider (`trace.SpanKindInternal` etc.). -/
inductive SpanKind where
  | internal
  | client
  | server
  | producer
  | consumer
deriving DecidableEq, Repr

/-- The record the provider keeps for one started span: its name, kind,
attributes, recorded events, recorded errors and whether `End` was called. -/
structure SpanData where
  name : String
  kind : SpanKind
  attrs : List (String × String)
  events : List String
  errors : List String
  ended : Bool
deriving DecidableEq, Repr

/-- The provider's store of spans; a live span is an index into it. -/
abbrev ProviderState : Type := List SpanData

/-- A provider span handle (`trace.Span`): either the provider's own no-op
span (what `trace.SpanFromContext` yields on an empty context) or a live
span in the provider store. -/
inductive TraceSpan where
  | noop
  | live (idx : Nat)
deriving DecidableEq, Repr

/-- Modify the element at index `i` of a list, if present. -/
def modifyIdx (l : List SpanData) (i : Nat) (f : SpanData → SpanData) : List SpanData :=
  match l, i with
  | [], _ => []
  | x :: xs, 0 => f x :: xs
  | x :: xs, i + 1 => x :: modifyIdx xs i f

/-- Provider `span.AddEvent`: records an event on a live span; the
provider's no-op span ignores it. -/
def TraceSpan.addEvent (t : TraceSpan) (name : String) (st : ProviderState) : ProviderState :=
  match t with
  | .noop => st
  | .live i => modifyIdx st i fun d => { d with events := d.events ++ [name] }

/-- Provider `span.RecordError`. -/
def TraceSpan.recordError (t : TraceSpan) (err : String) (st : ProviderState) : ProviderState :=
  match t with
  | .noop => st
  | .live i => modifyIdx st i fun d => { d with errors := d.errors ++ [err] }

/-- Provider `span.End`. -/
def TraceSpan.endSpan (t : TraceSpan) (st : ProviderState) : ProviderState :=
  match t with
  | .noop => st
  | .live i => modifyIdx st i fun d => { d with ended := true }

/-- Provider `span.SetAttributes`. -/
def TraceSpan.setAttributes (t : TraceSpan) (kvs : List (String × String))
    (st : ProviderState) : ProviderState :=
  match t with
  | .noop => st
  | .live i => modifyIdx st i fun d => { d with attrs := d.attrs ++ kvs }

/-- Go `context.Context`, as far as this package observes it: it may carry
a provider span. -/
structure Context where
  span? : Option TraceSpan
deriving DecidableEq, Repr

/-- `trace.SpanFromContext(ctx)`: the provider span stored in the context,
or the provider's no-op span when none is stored. -/
def otelSpanFromContext (ctx : Context) : TraceSpan :=
  ctx.span?.getD .noop

/-- `type Span struct { noop bool; span trace.Span }`.  The Go field
`span` is a nilable interface; `none` models the nil interface (only ever
the case for `noopSpan`, per the comment `Only set if noop=false`). -/
structure Span where
  noop : Bool
  span : Option TraceSpan
deriving DecidableEq, Repr

/-- `var noopSpan = &Span{noop: true}`. -/
def noopSpan : Span := { noop := true, span := none }

/-- `func newSpan(span trace.Span) *Span { return &Span{span: span} }` —
note it leaves `noop` at its zero value `false`. -/
def newSpan (span : TraceSpan) : Span :=
  { noop := false, span := some span }

/-- `func SpanFromContext(ctx context.Context) *Span`. -/
def SpanFromContext (ctx : Context) : Span :=
  newSpan (otelSpanFromContext ctx)

/-- `func (s *Span) AddEvent(name string)`.  Calling a method on the nil
interface `s.span` would panic in Go; that failure is modelled as `none`. -/
def Span.AddEvent (s : Span) (name : String) (st : ProviderState) : Option ProviderState :=
  if s.noop then some st
  else s.span.map fun t => t.addEvent name st

/-- `func (s *Span) End()`. -/
def Span.End (s : Span) (st : ProviderState) : Option ProviderState :=
  if s.noop then some st
  else s.span.map fun t => t.endSpan st

/-- `func (s *Span) RecordError(err error)`. -/
def Span.RecordError (s : Span) (err : String) (st : ProviderState) : Option ProviderState :=
  if s.noop then some st
  else s.span.map fun t => t.recordError err st

/-- One call in a sequence of `Span` method calls. -/
inductive SpanOp where
  | addEvent (name : String)
  | recordError (err : String)
  | endSpan
deriving DecidableEq, Repr

/-- Apply one `Span` method call to the provider state. -/
def applyOp (s : Span) (op : SpanOp) (st : ProviderState) : Option ProviderState :=
  match op with
  | .addEvent name => s.AddEvent name st
  | .recordError err => s.RecordError err st
  | .endSpan => s.End st

/-- Run a sequence of `Span` method calls, failing if any call fails. -/
def runOps (s : Span) (ops : List SpanOp) (st : ProviderState) : Option ProviderState :=
  match ops with
  | [] => some st
  | op :: rest => (applyOp s op st).bind (runOps s rest)

/-- `type carrier map[string]string`, as an association list whose keys
are unique (the Go map invariant). -/
abbrev Carrier : Type := List (String × String)

/-- `func (m carrier) Get(key string) string` — Go map indexing yields the
value's zero value `""` for an absent key. -/
def carrierGet (m : Carrier) (key : String) : String :=
  match m with
  | [] => ""
  | (k, v) :: rest => if k = key then v else carrierGet rest key

/-- `func (m carrier) Set(key string, value string)` — Go map assignment:
replace the binding if the key is present, otherwise add one. -/
def carrierSet (m : Carrier) (key value : String) : Carrier :=
  match m with
  | [] => [(key, value)]
  | (k, v) :: rest => if k = key then (key, value) :: rest else (k, v) :: carrierSet rest key value

/-- `func (m carrier) Keys() []string` — iterate the map collecting keys. -/
def carrierKeys (m : Carrier) : List String :=
  m.map Prod.fst

/-- One stack frame as `runtime.Caller`/`runtime.FuncForPC` report it:
source file, line number, and the function's fully-qualified name. -/
structure Frame where
  file : String
  line : Nat
  func : String
deriving DecidableEq, Repr

/-- `runtime.Caller(n)`: the frame `n` levels up the stack, where index 0
is the function invoking `runtime.Caller` itself; `ok=false` (here `none`)
when no such frame is retrievable. -/
def runtimeCaller (n : Nat) (stack : List Frame) : Option Frame :=
  stack.get? n

/-- `type callerInfo struct { File string; Line int; Func string }`. -/
structure callerInfo where
  File : String
  Line : Nat
  Func : String
deriving DecidableEq, Repr

/-- `strings.Split(s, sep)` for a one-character separator, over the
string's character list: always yields at least one (possibly empty)
segment. -/
def splitOnChar (c : Char) : List Char → List (List Char)
  | [] => [[]]
  | x :: xs =>
    if x = c then [] :: splitOnChar c xs
    else
      match splitOnChar c xs with
      | [] => [[x]]
      | h :: t => (x :: h) :: t

/-- `func caller(n int) callerInfo`: look the frame up; on failure return
the sentinel (`Line` stays at its zero value); on success split the
fully-qualified function name on `/` and keep the last segment
(`parts[len(parts)-1]`). -/
def caller (n : Nat) (stack : List Frame) : callerInfo :=
  match runtimeCaller n stack with
  | none => { File := "unknown", Line := 0, Func := "unknown" }
  | some f =>
    let parts := splitOnChar '/' f.func.data
    { File := f.file, Line := f.line, Func := ⟨parts.getLastD []⟩ }

/-- Lower-case hexadecimal digit, as Go's quoting uses. -/
def hexDigit (n : Nat) : Char :=
  if n < 10 then Char.ofNat (48 + n) else Char.ofNat (87 + n)

/-- One character under Go's `%q` string verb (`strconv.Quote`), faithful
on ASCII: escape `"` and `\`, keep printable ASCII (0x20–0x7E), use the
short escapes for BEL/BS/FF/LF/CR/TAB/VT, and `\xHH` for the remaining
bytes below 0x80.  Runes at 0x80 and above are kept as-is (`strconv`
additionally escapes the non-printable ones among them; this model treats
them all as printable). -/
def quoteRune (c : Char) : List Char :=
  if c = '"' ∨ c = '\\' then ['\\', c]
  else if 32 ≤ c.toNat ∧ c.toNat ≤ 126 then [c]
  else if c.toNat = 7 then ['\\', 'a']
  else if c.toNat = 8 then ['\\', 'b']
  else if c.toNat = 12 then ['\\', 'f']
  else if c = '\n' then ['\\', 'n']
  else if c = '\r' then ['\\', 'r']
  else if c = '\t' then ['\\', 't']
  else if c.toNat = 11 then ['\\', 'v']
  else if c.toNat < 128 then ['\\', 'x', hexDigit (c.toNat / 16), hexDigit (c.toNat % 16)]
  else [c]

/-- `fmt.Sprintf("%q", param)`: the parameter as a double-quoted string
literal. -/
def goQuote (s : String) : String :=
  ⟨'"' :: (s.data.map quoteRune).flatten ++ ['"']⟩

/-- `fmt.Sprintf("%s(%s)", a, b)`. -/
def sprintfName (a b : String) : String :=
  a ++ "(" ++ b ++ ")"

/-- `provider.Start(ctx, name, trace.WithSpanKind(kind))`: the provider
appends a fresh span record to its store and derives a child context
carrying the new span (the only part of a context this package observes). -/
def providerStart (st : ProviderState) (_ctx : Context) (name : String) (kind : SpanKind) :
    ProviderState × Context × TraceSpan :=
  (st ++ [{ name := name, kind := kind, attrs := [], events := [], errors := [], ended := false }],
   { span? := some (.live st.length) }, .live st.length)

/-- `func start(ctx, kind, params...)`.  `stack` is the call stack as
`runtime.Caller` inside `caller` sees it: index 0 the `caller` frame,
1 the `start` frame, 2 the Starter frame, 3 the Starter's caller — so
`caller(3)` inspects index 3.  The provider store is threaded explicitly. -/
def start (st : ProviderState) (stack : List Frame) (ctx : Context) (kind : SpanKind)
    (params : List String) : ProviderState × Context × Span :=
  let info := caller 3 stack
  let parts := params.foldl (fun acc param => acc ++ [goQuote param]) []
  let name := sprintfName info.Func (String.intercalate ", " parts)
  let res := providerStart st ctx name kind
  let st2 := res.2.2.setAttributes [("file", info.File ++ ":" ++ toString info.Line)] res.1
  (st2, res.2.1, newSpan res.2.2)

/-- `func StartInternal(ctx, params...)`. -/
def StartInternal (st : ProviderState) (stack : List Frame) (ctx : Context)
    (params : List String) : ProviderState × Context × Span :=
  start st stack ctx .internal params

/-- `func StartClient(ctx, params...)`. -/
def StartClient (st : ProviderState) (stack : List Frame) (ctx : Context)
    (params : List String) : ProviderState × Context × Span :=
  start st stack ctx .client params

/-- `func StartConsumer(ctx, params...)`. -/
def StartConsumer (st : ProviderState) (stack : List Frame) (ctx : Context)
    (params : List String) : ProviderState × Context × Span :=
  start st stack ctx .consumer params

/-- `func StartProducer(ctx, params...)`. -/
def StartProducer (st : ProviderState) (stack : List Frame) (ctx : Context)
    (params : List String) : ProviderState × Context × Span :=
  start st stack ctx .producer params

/-- `func StartServer(ctx, params...)`. -/
def StartServer (st : ProviderState) (stack : List Frame) (ctx : Context)
    (params : List String) : ProviderState × Context × Span :=
  start st stack ctx .server params

/-- The span name recorded at index `i` of the provider store. -/
def nameAt (st : ProviderState) (i : Nat) : Option String :=
  (st.get? i).map SpanData.name

/-- The attributes recorded at index `i` of the provider store. -/
def attrsAt (st : ProviderState) (i : Nat) : Option (List (String × String)) :=
  (st.get? i).map SpanData.attrs

/-- `otel.GetTextMapPropagator()`: the provider's global text-map
propagator, modelled as an explicit value with its two operations.
`inject` populates a carrier from a context; `extract` merges a carrier's
trace identity into a base context. -/
structure Propagator where
  inject : Context → Carrier → Carrier
  extract : Context → Carrier → Context

/-- `func Export(ctx context.Context) map[string]string`: make an empty
mapping, let the propagator inject into it, return it. -/
def Export (p : Propagator) (ctx : Context) : Carrier :=
  p.inject ctx []

/-- `func Import(ctx context.Context, index map[string]string)`. -/
def Import (p : Propagator) (ctx : Context) (index : Carrier) : Context :=
  p.extract ctx index

/-- A concrete observable trace identity for exercising the adapter: the
index of the live provider span a context carries, if any. -/
def wIdent (ctx : Context) : Option Nat :=
  match ctx.span? with
  | some (TraceSpan.live i) => some i
  | _ => none

/-- A concrete propagator honouring the provider contract: it encodes the
identity under one key and decodes it back. -/
def wProp : Propagator where
  inject := fun ctx m =>
    match wIdent ctx with
    | none => m
    | some i => m ++ [("id", ⟨List.replicate i 'x'⟩)]
  extract := fun ctx m =>
    match m.lookup "id" with
    | none => ctx
    | some s => { span? := some (TraceSpan.live s.length) }

/-- C1: the code at the claim's failing input.  On a context with no
provider span, `SpanFromContext` returns `newSpan` of the provider's no-op
span — a handle with `noop = false` whose methods delegate to the provider
span — and not the module's own `noopSpan` handle, contradicting the
claim, the function's own doc comment and the otherwise-unused `noopSpan`
variable. -/
theorem c1_spanFromContext_not_noop :
    SpanFromContext { span? := none } = { noop := false, span := some TraceSpan.noop } ∧
    SpanFromContext { span? := none } ≠ noopSpan ∧
    noopSpan.noop = true := by
  refine ⟨rfl, ?_, rfl⟩
  intro h
  simp [SpanFromContext, newSpan, noopSpan, otelSpanFromContext] at h

/-- C3: any sequence of `AddEvent`/`RecordError`/`End` calls on a handle
with the no-op flag set succeeds (never fails or panics) and leaves the
provider state untouched. -/
theorem c3_noop_ops_safe (s : Span) (h : s.noop = true) :
    ∀ (ops : List SpanOp) (st : ProviderState), runOps s ops st = some st := by
  intro ops
  induction ops with
  | nil => intro st; rfl
  | cons op rest ih =>
    intro st
    have happ : applyOp s op st = some st := by
      cases op <;> simp [applyOp, Span.AddEvent, Span.RecordError, Span.End, h]
    simp [runOps, happ, ih st]

/-- C3 witness: a concrete run on the module's `noopSpan`. -/
theorem c3_noop_ops_safe_witness :
    noopSpan.noop = true ∧
    runOps noopSpan [SpanOp.addEvent "e", SpanOp.recordError "boom", SpanOp.endSpan]
      [⟨"f()", SpanKind.internal, [], [], [], false⟩] =
      some [⟨"f()", SpanKind.internal, [], [], [], false⟩] :=
  ⟨rfl, c3_noop_ops_safe noopSpan rfl _ _⟩

/-- C9: `carrier.Keys` returns exactly the keys present in the mapping —
a key is listed iff some value is bound to it — and, being a pure
function of the mapping, the returned key set is deterministic. -/
theorem c9_keys_exact (m : Carrier) (k : String) :
    k ∈ carrierKeys m ↔ ∃ v, (k, v) ∈ m := by
  constructor
  · intro h
    rcases List.mem_map.mp h with ⟨⟨k0, v0⟩, hmem, hk⟩
    exact ⟨v0, by simpa [← hk] using hmem⟩
  · rintro ⟨v, hv⟩
    exact List.mem_map.mpr ⟨(k, v), hv, rfl⟩

/-- C10: `Get` after `Set` of the same key returns the new value (a later
`Set` overwrites), and `Get` on an absent key returns `""` without
failing. -/
theorem c10_get_set (m : Carrier) (k v : String) :
    carrierGet (carrierSet m k v) k = v ∧
    ((∀ w, (k, w) ∉ m) → carrierGet m k = "") := by
  constructor
  · induction m with
    | nil => simp [carrierSet, carrierGet]
    | cons p rest ih =>
      rcases p with ⟨k0, v0⟩
      by_cases hk : k0 = k
      · simp [carrierSet, carrierGet, hk]
      · simp [carrierSet, carrierGet, hk, ih]
  · intro habs
    induction m with
    | nil => rfl
    | cons p rest ih =>
      rcases p with ⟨k0, v0⟩
      have hk : k0 ≠ k := by
        intro h
        exact habs v0 (by simp [h])
      have habs' : ∀ w, (k, w) ∉ rest := by
        intro w hw
        exact habs w (List.mem_cons_of_mem _ hw)
      simp [carrierGet, hk, ih habs']

/-- Splitting never yields an empty list of segments. -/
theorem splitOnChar_ne_nil (c : Char) (l : List Char) : splitOnChar c l ≠ [] := by
  cases l with
  | nil => simp [splitOnChar]
  | cons x xs =>
    by_cases hx : x = c
    · simp [splitOnChar, hx]
    · simp only [splitOnChar, if_neg hx]
      cases h : splitOnChar c xs <;> simp

/-- A string free of the separator splits into the single segment itself. -/
theorem splitOnChar_of_not_mem (c : Char) :
    ∀ l : List Char, c ∉ l → splitOnChar c l = [l] := by
  intro l
  induction l with
  | nil => intro _; rfl
  | cons x xs ih =>
    intro h
    have hx : ¬x = c := fun he => h (he ▸ List.mem_cons_self x xs)
    have hxs : c ∉ xs := fun hc => h (List.mem_cons_of_mem _ hc)
    simp only [splitOnChar, if_neg hx]
    rw [ih hxs]

/-- A string containing the separator splits into at least two segments. -/
theorem two_le_length_splitOnChar (c : Char) :
    ∀ l : List Char, c ∈ l → 2 ≤ (splitOnChar c l).length := by
  intro l
  induction l with
  | nil => intro h; cases h
  | cons x xs ih =>
    intro h
    by_cases hx : x = c
    · simp only [splitOnChar, if_pos hx, List.length_cons]
      have h1 : 0 < (splitOnChar c xs).length :=
        List.length_pos.mpr (splitOnChar_ne_nil c xs)
      omega
    · have hxs : c ∈ xs := by
        rcases List.mem_cons.mp h with he | hm
        · exact absurd he.symm hx
        · exact hm
      have h2 := ih hxs
      simp only [splitOnChar, if_neg hx]
      cases hS : splitOnChar c xs with
      | nil => exact absurd hS (splitOnChar_ne_nil c xs)
      | cons h0 t =>
        rw [hS] at h2
        simp only [List.length_cons] at h2 ⊢
        omega

/-- The last segment of a split never contains the separator. -/
theorem not_mem_getLastD_splitOnChar (c : Char) :
    ∀ l : List Char, c ∉ (splitOnChar c l).getLastD [] := by
  intro l
  induction l with
  | nil => simp [splitOnChar]
  | cons x xs ih =>
    by_cases hx : x = c
    · simp only [splitOnChar, if_pos hx]
      cases hS : splitOnChar c xs with
      | nil => exact absurd hS (splitOnChar_ne_nil c xs)
      | cons h0 t =>
        rw [hS] at ih
        simpa [List.getLastD_cons] using ih
    · simp only [splitOnChar, if_neg hx]
      cases hS : splitOnChar c xs with
      | nil => exact absurd hS (splitOnChar_ne_nil c xs)
      | cons h0 t =>
        rw [hS] at ih
        cases t with
        | nil =>
          simp only [List.getLastD_cons, List.getLastD_nil] at ih ⊢
          intro hmem
          rcases List.mem_cons.mp hmem with he | hm
          · exact hx he.symm
          · exact ih hm
        | cons u t2 =>
          simpa [List.getLastD_cons] using ih

/-- The last segment of a split is a suffix of the input, preceded by
nothing or by a run ending in the separator. -/
theorem getLastD_splitOnChar_suffix (c : Char) :
    ∀ l : List Char,
      ∃ pre, l = pre ++ (splitOnChar c l).getLastD [] ∧
        (pre = [] ∨ ∃ q, pre = q ++ [c]) := by
  intro l
  induction l with
  | nil => exact ⟨[], rfl, Or.inl rfl⟩
  | cons x xs ih =>
    obtain ⟨pre, hpre, hcond⟩ := ih
    by_cases hx : x = c
    · have heq : (splitOnChar c (x :: xs)).getLastD [] = (splitOnChar c xs).getLastD [] := by
        simp only [splitOnChar, if_pos hx]
        cases hS : splitOnChar c xs with
        | nil => exact absurd hS (splitOnChar_ne_nil c xs)
        | cons h0 t => simp [List.getLastD_cons]
      refine ⟨x :: pre, ?_, Or.inr ?_⟩
      · rw [heq]
        simpa using congrArg (x :: ·) hpre
      · rcases hcond with h0 | ⟨q, hq⟩
        · exact ⟨[], by simp [h0, hx]⟩
        · exact ⟨x :: q, by simp [hq]⟩
    · cases hS : splitOnChar c xs with
      | nil => exact absurd hS (splitOnChar_ne_nil c xs)
      | cons h0 t =>
        cases t with
        | nil =>
          have hnm : c ∉ xs := by
            intro hc
            have h2 := two_le_length_splitOnChar c xs hc
            rw [hS] at h2
            simp at h2
          have hxx := splitOnChar_of_not_mem c xs hnm
          rw [hS] at hxx
          have hh0 : h0 = xs := by simpa using hxx
          refine ⟨[], ?_, Or.inl rfl⟩
          simp only [splitOnChar, if_neg hx, hS]
          simp [List.getLastD_cons, hh0]
        | cons u t2 =>
          have heq : (splitOnChar c (x :: xs)).getLastD [] = (splitOnChar c xs).getLastD [] := by
            simp only [splitOnChar, if_neg hx, hS]
            simp [List.getLastD_cons]
          have hcin : c ∈ xs := by
            by_contra hnm
            have hxx := splitOnChar_of_not_mem c xs hnm
            rw [hS] at hxx
            have hl := congrArg List.length hxx
            simp at hl
          rcases hcond with h0eq | ⟨q, hq⟩
          · exfalso
            rw [h0eq] at hpre
            simp only [List.nil_append] at hpre
            have hnl := not_mem_getLastD_splitOnChar c xs
            rw [← hpre] at hnl
            exact hnl hcin
          · refine ⟨x :: pre, ?_, Or.inr ⟨x :: q, by simp [hq]⟩⟩
            rw [heq]
            simpa using congrArg (x :: ·) hpre

/-- C6: when `runtime.Caller` cannot retrieve a frame at the requested
depth, `caller` returns the sentinel: file and function `"unknown"`, line
at its zero value.  (`caller` is a total function: it cannot raise.) -/
theorem c6_caller_sentinel (n : Nat) (stack : List Frame)
    (h : runtimeCaller n stack = none) :
    caller n stack = { File := "unknown", Line := 0, Func := "unknown" } := by
  simp [caller, h]

/-- C6 witness: depth 3 on an empty stack yields the sentinel. -/
theorem c6_caller_sentinel_witness :
    caller 3 [] = { File := "unknown", Line := 0, Func := "unknown" } :=
  c6_caller_sentinel 3 [] rfl

/-- C7: when `runtime.Caller` retrieves a frame, `caller` passes the file
path and line number through unchanged and reports as function name the
last slash-delimited segment of the fully-qualified name: a slash-free
suffix preceded by nothing or by a run of characters ending in a slash;
for a name with no slash, the whole name. -/
theorem c7_caller_success (n : Nat) (stack : List Frame) (f : Frame)
    (h : runtimeCaller n stack = some f) :
    (caller n stack).File = f.file ∧ (caller n stack).Line = f.line ∧
    '/' ∉ (caller n stack).Func.data ∧
    (∃ pre, f.func.data = pre ++ (caller n stack).Func.data ∧
      (pre = [] ∨ ∃ q, pre = q ++ ['/'])) ∧
    ('/' ∉ f.func.data → (caller n stack).Func = f.func) := by
  have hc : caller n stack =
      { File := f.file, Line := f.line,
        Func := ⟨(splitOnChar '/' f.func.data).getLastD []⟩ } := by
    simp [caller, h]
  rw [hc]
  refine ⟨rfl, rfl, ?_, ?_, ?_⟩
  · exact not_mem_getLastD_splitOnChar '/' f.func.data
  · exact getLastD_splitOnChar_suffix '/' f.func.data
  · intro hns
    show String.mk ((splitOnChar '/' f.func.data).getLastD []) = f.func
    rw [splitOnChar_of_not_mem '/' f.func.data hns]
    rfl

/-- C7 witness: a qualified name `x/y/pkg.Fn` reported from a concrete
frame. -/
theorem c7_caller_success_witness :
    (caller 0 [⟨"a.go", 12, "x/y/pkg.Fn"⟩]).File = "a.go" ∧
    (caller 0 [⟨"a.go", 12, "x/y/pkg.Fn"⟩]).Line = 12 ∧
    '/' ∉ (caller 0 [⟨"a.go", 12, "x/y/pkg.Fn"⟩]).Func.data ∧
    (∃ pre, ("x/y/pkg.Fn" : String).data = pre ++ (caller 0 [⟨"a.go", 12, "x/y/pkg.Fn"⟩]).Func.data ∧
      (pre = [] ∨ ∃ q, pre = q ++ ['/'])) ∧
    ('/' ∉ ("x/y/pkg.Fn" : String).data → (caller 0 [⟨"a.go", 12, "x/y/pkg.Fn"⟩]).Func = "x/y/pkg.Fn") :=
  c7_caller_success 0 [⟨"a.go", 12, "x/y/pkg.Fn"⟩] ⟨"a.go", 12, "x/y/pkg.Fn"⟩ rfl

/-- C10 witness: concrete overwrite and absent-key lookups. -/
theorem c10_get_set_witness :
    carrierGet (carrierSet [("a", "1")] "b" "x") "b" = "x" ∧
    carrierGet [("a", "1")] "b" = "" :=
  ⟨(c10_get_set [("a", "1")] "b" "x").1,
   (c10_get_set [("a", "1")] "b" "x").2 (by intro w hw; simp at hw)⟩

/-- The parameter-quoting loop in `start` is quoting each parameter in
order. -/
theorem foldl_quote_eq_map (acc : List String) (params : List String) :
    params.foldl (fun a p => a ++ [goQuote p]) acc = acc ++ params.map goQuote := by
  induction params generalizing acc with
  | nil => simp
  | cons p rest ih => simp [ih]

/-- Reading back the modified index of the provider store. -/
theorem get?_modifyIdx_self (l : List SpanData) (i : Nat) (f : SpanData → SpanData) :
    (modifyIdx l i f).get? i = (l.get? i).map f := by
  induction l generalizing i with
  | nil => cases i <;> rfl
  | cons x xs ih =>
    cases i with
    | zero => rfl
    | succ j => exact ih j

/-- Reading back a freshly appended provider span record. -/
theorem get?_append_self (l : List SpanData) (a : SpanData) :
    (l ++ [a]).get? l.length = some a := by
  induction l with
  | nil => rfl
  | cons x xs ih => exact ih

/-- The span record `start` leaves in the provider store. -/
theorem start_spanData (st : ProviderState) (stack : List Frame) (ctx : Context)
    (kind : SpanKind) (params : List String) :
    ((start st stack ctx kind params).1).get? st.length =
      some { name := sprintfName (caller 3 stack).Func
               (String.intercalate ", " (params.map goQuote)),
             kind := kind,
             attrs := [("file", (caller 3 stack).File ++ ":" ++ toString (caller 3 stack).Line)],
             events := [], errors := [], ended := false } := by
  unfold start providerStart
  simp only [TraceSpan.setAttributes]
  rw [get?_modifyIdx_self, get?_append_self]
  simp [foldl_quote_eq_map]

/-- Formatting with no parameter text yields `<name>()`. -/
theorem sprintfName_empty (a : String) : sprintfName a "" = a ++ "()" := by
  show ((a ++ "(") ++ "") ++ ")" = a ++ "()"
  rw [String.append_empty, String.append_assoc]
  rw [(by decide : ("(" : String) ++ ")" = "()")]

/-- C2: for every parameter list, each of the five Starter functions names
the span `<caller func>(<params each %q-quoted, joined by ", ">)`; a
zero-length parameter list yields `<caller func>()`. -/
theorem c2_span_name (st : ProviderState) (stack : List Frame) (ctx : Context)
    (params : List String) :
    (nameAt (StartInternal st stack ctx params).1 st.length =
      some ((caller 3 stack).Func ++ "(" ++ String.intercalate ", " (params.map goQuote) ++ ")")) ∧
    (nameAt (StartClient st stack ctx params).1 st.length =
      some ((caller 3 stack).Func ++ "(" ++ String.intercalate ", " (params.map goQuote) ++ ")")) ∧
    (nameAt (StartServer st stack ctx params).1 st.length =
      some ((caller 3 stack).Func ++ "(" ++ String.intercalate ", " (params.map goQuote) ++ ")")) ∧
    (nameAt (StartProducer st stack ctx params).1 st.length =
      some ((caller 3 stack).Func ++ "(" ++ String.intercalate ", " (params.map goQuote) ++ ")")) ∧
    (nameAt (StartConsumer st stack ctx params).1 st.length =
      some ((caller 3 stack).Func ++ "(" ++ String.intercalate ", " (params.map goQuote) ++ ")")) ∧
    (params = [] → nameAt (StartInternal st stack ctx params).1 st.length =
      some ((caller 3 stack).Func ++ "()")) := by
  have h := fun kind => start_spanData st stack ctx kind params
  refine ⟨?_, ?_, ?_, ?_, ?_, ?_⟩
  · simp only [nameAt, StartInternal]
    rw [h SpanKind.internal]
    rfl
  · simp only [nameAt, StartClient]
    rw [h SpanKind.client]
    rfl
  · simp only [nameAt, StartServer]
    rw [h SpanKind.server]
    rfl
  · simp only [nameAt, StartProducer]
    rw [h SpanKind.producer]
    rfl
  · simp only [nameAt, StartConsumer]
    rw [h SpanKind.consumer]
    rfl
  · intro hp
    subst hp
    simp only [nameAt, StartInternal]
    rw [h SpanKind.internal, Option.map_some']
    exact congrArg some (sprintfName_empty (caller 3 stack).Func)

/-- C2 witness: an empty parameter list on a caller `…/app.DoWork` yields
the span name `app.DoWork()`. -/
theorem c2_span_name_witness :
    nameAt (StartInternal []
      [⟨"c.go", 1, "pkg.caller"⟩, ⟨"o.go", 2, "pkg.start"⟩,
       ⟨"o.go", 3, "pkg.StartInternal"⟩, ⟨"u.go", 7, "github.com/me/app.DoWork"⟩]
      ⟨none⟩ []).1 0 = some "app.DoWork()" :=
  ((c2_span_name []
      [⟨"c.go", 1, "pkg.caller"⟩, ⟨"o.go", 2, "pkg.start"⟩,
       ⟨"o.go", 3, "pkg.StartInternal"⟩, ⟨"u.go", 7, "github.com/me/app.DoWork"⟩]
      ⟨none⟩ []).2.2.2.2.2 rfl).trans (by decide)

/-- C5: the five Starter functions are the one shared algorithm `start`
applied with their respective span kinds, and `start`'s call-site lookup
at depth 3 skips exactly the `caller`, `start` and Starter frames, so the
reported location is the Starter's caller. -/
theorem c5_starters_identical (st : ProviderState) (stack : List Frame) (ctx : Context)
    (params : List String) :
    StartInternal st stack ctx params = start st stack ctx SpanKind.internal params ∧
    StartClient st stack ctx params = start st stack ctx SpanKind.client params ∧
    StartServer st stack ctx params = start st stack ctx SpanKind.server params ∧
    StartProducer st stack ctx params = start st stack ctx SpanKind.producer params ∧
    StartConsumer st stack ctx params = start st stack ctx SpanKind.consumer params ∧
    (∀ f0 f1 f2 f3 : Frame, ∀ rest : List Frame,
      caller 3 (f0 :: f1 :: f2 :: f3 :: rest) = caller 0 (f3 :: rest)) ∧
    (∀ f0 f1 f2 f3 : Frame, ∀ rest : List Frame,
      (caller 3 (f0 :: f1 :: f2 :: f3 :: rest)).File = f3.file ∧
      (caller 3 (f0 :: f1 :: f2 :: f3 :: rest)).Line = f3.line) := by
  refine ⟨rfl, rfl, rfl, rfl, rfl, ?_, ?_⟩
  · intro f0 f1 f2 f3 rest
    rfl
  · intro f0 f1 f2 f3 rest
    exact ⟨rfl, rfl⟩

/-- C8: every span a Starter creates carries exactly one attribute from
this layer: key `"file"` with value `<caller file>:<caller line>`. -/
theorem c8_file_attr (st : ProviderState) (stack : List Frame) (ctx : Context)
    (params : List String) (f : Frame) (h : runtimeCaller 3 stack = some f) :
    (attrsAt (StartInternal st stack ctx params).1 st.length =
      some [("file", f.file ++ ":" ++ toString f.line)]) ∧
    (attrsAt (StartClient st stack ctx params).1 st.length =
      some [("file", f.file ++ ":" ++ toString f.line)]) ∧
    (attrsAt (StartServer st stack ctx params).1 st.length =
      some [("file", f.file ++ ":" ++ toString f.line)]) ∧
    (attrsAt (StartProducer st stack ctx params).1 st.length =
      some [("file", f.file ++ ":" ++ toString f.line)]) ∧
    (attrsAt (StartConsumer st stack ctx params).1 st.length =
      some [("file", f.file ++ ":" ++ toString f.line)]) := by
  have hFile : (caller 3 stack).File = f.file := by simp [caller, h]
  have hLine : (caller 3 stack).Line = f.line := by simp [caller, h]
  have hgen : ∀ kind, attrsAt (start st stack ctx kind params).1 st.length =
      some [("file", f.file ++ ":" ++ toString f.line)] := by
    intro kind
    rw [attrsAt, start_spanData]
    simp [hFile, hLine]
  exact ⟨hgen _, hgen _, hgen _, hgen _, hgen _⟩

/-- C8 witness: the concrete attribute `("file", "u.go:7")` on a span
started from line 7 of `u.go`. -/
theorem c8_file_attr_witness :
    attrsAt (StartServer []
      [⟨"c.go", 1, "pkg.caller"⟩, ⟨"o.go", 2, "pkg.start"⟩,
       ⟨"o.go", 3, "pkg.StartServer"⟩, ⟨"u.go", 7, "github.com/me/app.Handle"⟩]
      ⟨none⟩ ["req"]).1 0 = some [("file", "u.go:7")] :=
  ((c8_file_attr []
      [⟨"c.go", 1, "pkg.caller"⟩, ⟨"o.go", 2, "pkg.start"⟩,
       ⟨"o.go", 3, "pkg.StartServer"⟩, ⟨"u.go", 7, "github.com/me/app.Handle"⟩]
      ⟨none⟩ ["req"] ⟨"u.go", 7, "github.com/me/app.Handle"⟩ rfl).2.2.1).trans (by decide)

/-- The concrete propagator honours the provider round-trip guarantee. -/
theorem wProp_roundtrip (base ctx : Context) (t : Nat) (ht : wIdent ctx = some t) :
    wIdent (wProp.extract base (wProp.inject ctx [])) = some t := by
  simp only [wProp, ht]
  simp [wIdent, List.lookup, String.length, List.length_replicate]

/-- The concrete propagator injects nothing from an identity-free context. -/
theorem wProp_inject_none (ctx : Context) (m : Carrier) (h : wIdent ctx = none) :
    wProp.inject ctx m = m := by
  simp [wProp, h]

/-- The concrete propagator extracts nothing from an empty carrier. -/
theorem wProp_extract_empty (ctx : Context) : wProp.extract ctx [] = ctx := by
  simp [wProp, List.lookup]

/-- C4: Export creates the mapping fresh and delegates to the provider's
propagator, Import delegates to its extract; so whenever the propagator
guarantees its round trip (`hrt`), that it injects nothing from an
identity-free context (`hinj`), and that extracting from an empty carrier
leaves the context unchanged (`hext`), then `Import ctx2 (Export ctx1)`
restores `ctx1`'s observable trace identity, `Export` of an identity-free
context is the empty mapping, and `Import` with an empty mapping returns
its input context. -/
theorem c4_export_import_roundtrip {Ident : Type} (identOf : Context → Option Ident)
    (p : Propagator)
    (hrt : ∀ base ctx t, identOf ctx = some t →
      identOf (p.extract base (p.inject ctx [])) = some t)
    (hinj : ∀ ctx m, identOf ctx = none → p.inject ctx m = m)
    (hext : ∀ ctx, p.extract ctx [] = ctx) :
    (∀ ctx1 ctx2 t, identOf ctx1 = some t →
      identOf (Import p ctx2 (Export p ctx1)) = some t) ∧
    (∀ ctx, identOf ctx = none → Export p ctx = []) ∧
    (∀ ctx, Import p ctx [] = ctx) := by
  refine ⟨?_, ?_, ?_⟩
  · intro ctx1 ctx2 t ht
    exact hrt ctx2 ctx1 t ht
  · intro ctx h
    exact hinj ctx [] h
  · intro ctx
    exact hext ctx

/-- C4 witness: a concrete propagator and contexts — identity 2 survives
the Export/Import round trip, and the empty cases behave as claimed. -/
theorem c4_export_import_roundtrip_witness :
    wIdent ⟨some (TraceSpan.live 2)⟩ = some 2 ∧
    wIdent (Import wProp ⟨none⟩ (Export wProp ⟨some (TraceSpan.live 2)⟩)) = some 2 ∧
    Export wProp ⟨none⟩ = [] ∧
    Import wProp ⟨none⟩ [] = ⟨none⟩ :=
  ⟨rfl,
   (c4_export_import_roundtrip wIdent wProp (fun b c t => wProp_roundtrip b c t)
      (fun c m => wProp_inject_none c m) (fun c => wProp_extract_empty c)).1
     ⟨some (TraceSpan.live 2)⟩ ⟨none⟩ 2 rfl,
   (c4_export_import_roundtrip wIdent wProp (fun b c t => wProp_roundtrip b c t)
      (fun c m => wProp_inject_none c m) (fun c => wProp_extract_empty c)).2.1
     ⟨none⟩ rfl,
   (c4_export_import_roundtrip wIdent wProp (fun b c t => wProp_roundtrip b c t)
      (fun c m => wProp_inject_none c m) (fun c => wProp_extract_empty c)).2.2
     ⟨none⟩⟩
